import Mathlib

/-!
Verification of the logtap Heroku log-drain library.

This file gives a shallow embedding of the library core in Lean 4:
the UTF-8 sanitizer (ensureUtf8), the octet-counting frame tokenizer
(tokenize), the syslog record parser (ParseSyslogMessage), the stream
decoder (ReadSyslogMessages), the HTTP drain handler (ServeHTTP) and
the log-line telemetry formatter (printAppMetric).

Byte strings are modelled as `List Nat` of byte values.  Machine
integers are modelled as `Nat`/`Int` with explicit bounds.  Stateful
Go code (the bufio scanner loop, the HTTP handler) is modelled as pure
functions returning the observable effects of one request.
-/

deriving instance DecidableEq for Except

namespace Logtap

/-! ### Model of the Go unicode/utf8 package (external dependency of ensureUtf8)

`decodeRune` models `utf8.DecodeRuneInString` on the byte level: the
first byte selects the sequence length and the acceptable range of the
second byte (the `first` and `acceptRanges` tables of the Go source);
continuation bytes must lie in 0x80..0xBF; invalid, truncated or
overlong input yields (RuneError, 1).  Values that are not bytes
(>= 256) never match a range and behave like invalid bytes. -/

/-- U+FFFD, the Unicode replacement character (Go utf8.RuneError). -/
def RuneError : Nat := 65533

/-- The two-byte branch of the decoder: the continuation byte must lie
in 0x80..0xBF (accept range s1 of the Go table). -/
def decode2 (b0 : Nat) : List Nat → Nat × Nat
  | b1 :: _ =>
    if 128 ≤ b1 ∧ b1 ≤ 191 then ((b0 % 32) * 64 + b1 % 64, 2)
    else (RuneError, 1)
  | [] => (RuneError, 1)

/-- The three-byte branch of the decoder: the second byte range
depends on the first byte (0xE0 excludes overlong encodings, 0xED
excludes surrogates), the third byte must lie in 0x80..0xBF. -/
def decode3 (b0 : Nat) : List Nat → Nat × Nat
  | b1 :: b2 :: _ =>
    if (if b0 = 224 then 160 else 128) ≤ b1 ∧ b1 ≤ (if b0 = 237 then 159 else 191)
        ∧ 128 ≤ b2 ∧ b2 ≤ 191
    then ((b0 % 16) * 4096 + (b1 % 64) * 64 + b2 % 64, 3)
    else (RuneError, 1)
  | [_] => (RuneError, 1)
  | [] => (RuneError, 1)

/-- The four-byte branch of the decoder: the second byte range depends
on the first byte (0xF0 excludes overlong encodings, 0xF4 excludes
values above U+10FFFF), later bytes must lie in 0x80..0xBF. -/
def decode4 (b0 : Nat) : List Nat → Nat × Nat
  | b1 :: b2 :: b3 :: _ =>
    if (if b0 = 240 then 144 else 128) ≤ b1 ∧ b1 ≤ (if b0 = 244 then 143 else 191)
        ∧ 128 ≤ b2 ∧ b2 ≤ 191 ∧ 128 ≤ b3 ∧ b3 ≤ 191
    then ((b0 % 8) * 262144 + (b1 % 64) * 4096 + (b2 % 64) * 64 + b3 % 64, 4)
    else (RuneError, 1)
  | [_, _] => (RuneError, 1)
  | [_] => (RuneError, 1)
  | [] => (RuneError, 1)

/-- Model of Go utf8.DecodeRuneInString: returns the decoded rune and
the number of bytes consumed.  Empty input gives (RuneError, 0); every
invalid or truncated encoding gives (RuneError, 1).  The first byte
selects the branch: ASCII, invalid lead (continuation bytes and the
overlong leads 0xC0, 0xC1), the two-, three- or four-byte branches, or
an invalid lead at 0xF5 and above. -/
def decodeRune : List Nat → Nat × Nat
  | [] => (RuneError, 0)
  | b0 :: rest =>
    if b0 < 128 then (b0, 1)
    else if b0 < 194 then (RuneError, 1)
    else if b0 < 224 then decode2 b0 rest
    else if b0 < 240 then decode3 b0 rest
    else if b0 < 245 then decode4 b0 rest
    else (RuneError, 1)

/-- Fuelled loop of Go utf8.ValidString: walk the string one rune at a
time; ASCII advances one byte, otherwise the decoder must accept the
sequence.  Each step consumes at least one byte, so fuel = length is
always enough; the fuel 0 case is unreachable on such calls. -/
def validF : Nat → List Nat → Bool
  | 0, s => s.isEmpty
  | _ + 1, [] => true
  | f + 1, b :: rest =>
    if b < 128 then validF f rest
    else if (decodeRune (b :: rest)).1 = RuneError ∧ (decodeRune (b :: rest)).2 = 1 then
      false
    else validF f (List.drop (decodeRune (b :: rest)).2 (b :: rest))

/-- Model of Go utf8.ValidString. -/
def validString (s : List Nat) : Bool := validF s.length s

/-! ### ensureUtf8 -/

/-- Fuelled loop body of ensureUtf8 (the non-valid branch): ASCII bytes
pass through, a decodable sequence passes through whole, and an invalid
byte is replaced by the three-byte encoding of U+FFFD (0xEF 0xBF 0xBD),
exactly as buf.WriteRune(utf8.RuneError) emits it.  Fuel = length is
always enough. -/
def fixF : Nat → List Nat → List Nat
  | 0, s => s
  | _ + 1, [] => []
  | f + 1, b :: rest =>
    if b < 128 then b :: fixF f rest
    else if (decodeRune (b :: rest)).1 = RuneError ∧ (decodeRune (b :: rest)).2 = 1 then
      239 :: 191 :: 189 :: fixF f rest
    else
      List.take (decodeRune (b :: rest)).2 (b :: rest)
        ++ fixF f (List.drop (decodeRune (b :: rest)).2 (b :: rest))

/-- Model of logtap ensureUtf8: valid input is returned unchanged,
otherwise the repair loop runs over the whole string. -/
def ensureUtf8 (s : List Nat) : List Nat :=
  if validString s then s else fixF s.length s

/-! ### Octet-counting frame tokenizer -/

/-- The two error kinds of Go strconv.ParseUint: ErrSyntax (non-digit
content) and ErrRange (value above the requested bit size). -/
inductive NumError
  | invalid
  | overflow
deriving DecidableEq, Repr

/-- Decimal value of a big-endian list of ASCII digit bytes. -/
def digitsVal (l : List Nat) : Nat := l.foldl (fun a c => 10 * a + (c - 48)) 0

/-- Model of Go strconv.ParseUint(string(s), 10, 16): the input must be
a nonempty string of decimal digits whose value fits in 16 bits. -/
def parseUint16 (s : List Nat) : Except NumError Nat :=
  if s = [] then .error .invalid
  else if s.all (fun c => 48 ≤ c ∧ c ≤ 57) then
    let v := digitsVal s
    if v ≤ 65535 then .ok v else .error .overflow
  else .error .invalid

/-- Model of logtap tokenize (a bufio.SplitFunc): returns the triple
(advance, token, error).  `none` for the token models the nil slice,
`none` for the error models the nil error. -/
def tokenize (data : List Nat) (atEOF : Bool) : Nat × Option (List Nat) × Option NumError :=
  if atEOF ∧ data = [] then (0, none, none)
  else
    match List.findIdx? (fun x => x = 32) data with
    | some i =>
      match parseUint16 (data.take i) with
      | .ok size =>
        if data.length - i - 1 ≥ size then
          (i + 1 + size, some ((data.drop (i + 1)).take size), none)
        else (0, none, none)
      | .error e => (0, none, some e)
    | none => (0, none, none)

/-! ### The syslog message pattern

The Go parser matches the regular expression
  ^<(.+?)>(.+?) (.+?) (.+?) (.+?) (.+?) (.+?) (.*)
against the sanitized string.  In Go regexp semantics, `.` matches any
rune except newline, `^` anchors at the start of the text, `(.+?)` is a
lazy nonempty group and the submatches follow leftmost-first
preference.  For this pattern the leftmost-first match is computed by
the greedy-lazy algorithm below: each of the first seven groups is the
shortest nonempty newline-free run ending right before the next
terminator byte, and the last group is everything up to the first
newline.  (If the shortest choice of a terminator admits no
continuation then no longer choice does either, because every longer
choice would have to absorb the newline or terminator that blocked the
shorter one, so no backtracking is needed.)  The input is always a
sanitized, hence valid, UTF-8 string, on which the ASCII terminator
bytes 60, 62, 32 and 10 occur only as whole runes, so the byte-level
scan agrees with the rune-level semantics of the Go regexp engine. -/

/-- Index of the first occurrence of the byte `term`, scanning left to
right but failing on a newline (byte 10), which `.` cannot match. -/
def scanTerm (term : Nat) : List Nat → Option Nat
  | [] => none
  | c :: rest =>
    if c = term then some 0
    else if c = 10 then none
    else (scanTerm term rest).map (· + 1)

/-- Match the lazy group-and-terminator `(.+?)x`: the group is the
shortest nonempty newline-free run followed by the terminator byte;
returns the group and the remainder after the terminator. -/
def lazyField (term : Nat) : List Nat → Option (List Nat × List Nat)
  | [] => none
  | c :: rest =>
    if c = 10 then none
    else (scanTerm term rest).map fun i => (c :: rest.take i, rest.drop (i + 1))

/-- The eight capture groups of the syslog message pattern. -/
structure SyslogGroups where
  g1 : List Nat
  g2 : List Nat
  g3 : List Nat
  g4 : List Nat
  g5 : List Nat
  g6 : List Nat
  g7 : List Nat
  g8 : List Nat
deriving DecidableEq, Repr

/-- Leftmost-first match of the syslog message pattern (the behaviour
of syslogMessagePattern.FindStringSubmatch on sanitized input). -/
def matchSyslog (s : List Nat) : Option SyslogGroups :=
  match s with
  | 60 :: rest => do
    let p1 ← lazyField 62 rest
    let p2 ← lazyField 32 p1.2
    let p3 ← lazyField 32 p2.2
    let p4 ← lazyField 32 p3.2
    let p5 ← lazyField 32 p4.2
    let p6 ← lazyField 32 p5.2
    let p7 ← lazyField 32 p6.2
    some ⟨p1.1, p2.1, p3.1, p4.1, p5.1, p6.1, p7.1, p7.2.takeWhile (fun c => ¬ c = 10)⟩
  | _ => none

/-! ### Model of Go time.Parse with layout time.RFC3339Nano

The layout is "2006-01-02T15:04:05.999999999Z07:00": a four-digit
year, two-digit month, day, hour, minute and second with literal
separators, an optional fractional second introduced by a period or a
comma (extra digits beyond nine are consumed and truncated), and a
zone that is either the letter Z (the UTC location) or a sign with
two-digit hours, a colon and two-digit minutes (a fixed-offset
location).  After the layout is consumed the input must be exhausted.
time.Parse then range-checks month, day (against the month length,
leap years included), hour, minute and second.  A Go time.Time is
modelled by the absolute instant in nanoseconds since the Unix epoch
together with its location. -/

/-- Location of a parsed Go time.Time: the UTC location or a fixed
zone with the given offset in seconds east of UTC. -/
inductive GoLoc
  | utc
  | fixed (offsetSec : Int)
deriving DecidableEq, Repr

/-- Model of a Go time.Time: absolute instant (nanoseconds since the
Unix epoch) plus location. -/
structure GoTime where
  instant : Int
  loc : GoLoc
deriving DecidableEq, Repr

/-- Model of the Go method Time.UTC: same instant, location UTC. -/
def toUTC (t : GoTime) : GoTime := { t with loc := .utc }

/-- Read exactly `k` ASCII digits from the front of the input. -/
def readFixed (k : Nat) (l : List Nat) : Option (Nat × List Nat) :=
  if (l.take k).length = k ∧ (l.take k).all (fun c => 48 ≤ c ∧ c ≤ 57) then
    some (digitsVal (l.take k), l.drop k)
  else none

/-- Require a literal byte at the front of the input. -/
def expectByte (b : Nat) : List Nat → Option (List Nat)
  | [] => none
  | c :: rest => if c = b then some rest else none

/-- Gregorian leap year test, as in the Go time package. -/
def isLeap (y : Nat) : Bool := y % 4 = 0 ∧ (y % 100 ≠ 0 ∨ y % 400 = 0)

/-- Days in a month (month in 1..12), as in the Go time package. -/
def daysInMonth (y m : Nat) : Nat :=
  if m = 2 then (if isLeap y then 29 else 28)
  else if m = 4 ∨ m = 6 ∨ m = 9 ∨ m = 11 then 30
  else 31

/-- Days between the Unix epoch and the civil date y-m-d (proleptic
Gregorian calendar). -/
def daysFromCivil (y m d : Int) : Int :=
  let y2 := if m ≤ 2 then y - 1 else y
  let era := (if 0 ≤ y2 then y2 else y2 - 399) / 400
  let yoe := y2 - era * 400
  let mp := (m + 9) % 12
  let doy := (153 * mp + 2) / 5 + d - 1
  let doe := yoe * 365 + yoe / 4 - yoe / 100 + doy
  era * 146097 + doe - 719468

/-- The optional fractional second: a period or comma followed by at
least one digit; all following digits are consumed and the first nine
give the nanoseconds (padded with zeros on the right). -/
def parseFrac (l : List Nat) : Nat × List Nat :=
  match l with
  | c :: d :: _ =>
    if (c = 46 ∨ c = 44) ∧ 48 ≤ d ∧ d ≤ 57 then
      let ds := (l.drop 1).takeWhile (fun x => 48 ≤ x ∧ x ≤ 57)
      (digitsVal (ds.take 9) * 10 ^ (9 - min 9 ds.length), (l.drop 1).dropWhile (fun x => 48 ≤ x ∧ x ≤ 57))
    else (0, l)
  | _ => (0, l)

/-- The zone part of the layout: Z, or a sign and hh:mm.  Returns the
location and the offset in seconds east of UTC. -/
def parseZone (l : List Nat) : Option (GoLoc × Int × List Nat) :=
  match l with
  | 90 :: rest => some (.utc, 0, rest)
  | c :: rest =>
    if c = 43 ∨ c = 45 then do
      let (hh, r1) ← readFixed 2 rest
      let r2 ← expectByte 58 r1
      let (mm, r3) ← readFixed 2 r2
      let off : Int := (if c = 43 then 1 else -1) * ((hh : Int) * 60 + mm) * 60
      some (.fixed off, off, r3)
    else none
  | [] => none

/-- Model of Go time.Parse(time.RFC3339Nano, s): returns the parsed
time, or none on any syntax or range failure. -/
def parseRFC3339Nano (l : List Nat) : Option GoTime := do
  let (y, r1) ← readFixed 4 l
  let r2 ← expectByte 45 r1
  let (mo, r3) ← readFixed 2 r2
  let r4 ← expectByte 45 r3
  let (d, r5) ← readFixed 2 r4
  let r6 ← expectByte 84 r5
  let (h, r7) ← readFixed 2 r6
  let r8 ← expectByte 58 r7
  let (mi, r9) ← readFixed 2 r8
  let r10 ← expectByte 58 r9
  let (sec, r11) ← readFixed 2 r10
  let fr := parseFrac r11
  let (loc, off, r12) ← parseZone fr.2
  if r12 = [] ∧ 1 ≤ mo ∧ mo ≤ 12 ∧ 1 ≤ d ∧ d ≤ daysInMonth y mo
      ∧ h < 24 ∧ mi < 60 ∧ sec < 60 then
    some ⟨(daysFromCivil y mo d * 86400 + h * 3600 + mi * 60 + sec - off) * 1000000000
            + fr.1, loc⟩
  else none

/-! ### The syslog record parser and stream decoder -/

/-- The errors the decoding pipeline can produce: the pattern-mismatch
error ErrSyslogPatternMismatch, a time.Parse error carrying the
offending timestamp field, or a framing (strconv) error from the
tokenizer. -/
inductive TapErr
  | patternMismatch
  | timeParse (field : List Nat)
  | framing (e : NumError)
deriving DecidableEq, Repr

/-- Model of the logtap SyslogMessage struct (the revision without a
context field: Heroku data lacks the structured-data part). -/
structure SyslogMessage where
  Priority : List Nat
  Version : List Nat
  Timestamp : GoTime
  Hostname : List Nat
  Appname : List Nat
  Procid : List Nat
  Msgid : List Nat
  Text : List Nat
deriving DecidableEq, Repr

/-- Model of logtap ParseSyslogMessage: sanitize, match the pattern
(mismatch is ErrSyslogPatternMismatch), parse the timestamp field
(failure is the time.Parse error), and on success build the record
with the timestamp normalized to UTC. -/
def ParseSyslogMessage (b : List Nat) : Except TapErr SyslogMessage :=
  let s := ensureUtf8 b
  match matchSyslog s with
  | none => .error .patternMismatch
  | some gs =>
    match parseRFC3339Nano gs.g3 with
    | none => .error (.timeParse gs.g3)
    | some t =>
      .ok { Priority := gs.g1, Version := gs.g2, Timestamp := toUTC t,
            Hostname := gs.g4, Appname := gs.g5, Procid := gs.g6,
            Msgid := gs.g7, Text := gs.g8 }

/-! ### Stream decoder (ReadSyslogMessages)

The bufio.Scanner drives tokenize over the reader.  The reader is
modelled as the byte sequence it delivers (an in-memory reader, as in
the tests).  tokenize gives the same answer whatever its atEOF flag
(proved below), so the incremental buffering of the scanner is
invisible and the loop may be modelled directly on the remaining
bytes: a token is handed to ParseSyslogMessage (success appends to the
results, failure appends to the errors), a split error stops the scan
and becomes the terminal error appended after the loop, and a
need-more-data answer with no further input ends the scan cleanly.
Each produced token advances by at least one byte, so fuel = length+1
suffices; the fuel 0 case is unreachable on such calls.  (The 64 KiB
buffer cap of bufio.Scanner, which can reject frames close to the
65535-byte bound with ErrTooLong, is a bufio internal limit and is not
modelled.) -/

/-- Fuelled scanner loop of ReadSyslogMessages. -/
def readAux : Nat → List SyslogMessage → List TapErr → List Nat →
    List SyslogMessage × List TapErr
  | 0, ms, es, _ => (ms, es)
  | f + 1, ms, es, data =>
    match tokenize data true with
    | (adv, some tok, _) =>
      match ParseSyslogMessage tok with
      | .ok m => readAux f (ms ++ [m]) es (data.drop adv)
      | .error e => readAux f ms (es ++ [e]) (data.drop adv)
    | (_, none, some e) => (ms, es ++ [.framing e])
    | (_, none, none) => (ms, es)

/-- Model of logtap ReadSyslogMessages: appends decoded messages to
the given slice and returns the accumulated error list. -/
def ReadSyslogMessages (results : List SyslogMessage) (data : List Nat) :
    List SyslogMessage × List TapErr :=
  readAux (data.length + 1) results [] data

/-- The frames of a stream: the payloads the tokenizer recognizes, in
order, together with the fatal framing error that stopped the scan, if
any.  This is the declarative decomposition used to state what the
stream decoder computes. -/
def framesAux : Nat → List Nat → List (List Nat) × Option NumError
  | 0, _ => ([], none)
  | f + 1, data =>
    match tokenize data true with
    | (adv, some tok, _) =>
      let r := framesAux f (data.drop adv)
      (tok :: r.1, r.2)
    | (_, none, some e) => ([], some e)
    | (_, none, none) => ([], none)

/-- The frames of the whole stream. -/
def syslogFrames (data : List Nat) : List (List Nat) × Option NumError :=
  framesAux (data.length + 1) data

/-- The error of a failed parse, if any. -/
def errOf : Except TapErr SyslogMessage → Option TapErr
  | .error e => some e
  | .ok _ => none

/-! ### The HTTP drain handler

ServeHTTP is modelled as a pure function from the request data to the
observable effects of handling it: the response status and body, the
capacity hint passed to make (if any), the invocation of the sink F
(if any), the telemetry calls in order, and the lines sent to the
standard logger.  The context getter is a parameter (the
ContextGetter field); a resolver error is modelled by the bytes of its
error text.  `now` is the wall clock read by time.Since. -/

/-- The parts of an HTTP request that ServeHTTP and its collaborators
read: the Logplex-Msg-Count header value ([] when absent, as
Header.Get returns the empty string) and the body bytes. -/
structure Request where
  msgCountHeader : List Nat
  body : List Nat
deriving DecidableEq, Repr

/-- The metric names the handler emits. -/
inductive MetricName
  | contextError   -- the Go string "context error"
  | timeLag        -- the Go string "time lag"
  | request        -- the Go string "request"
  | msgCountDelta  -- the Go string "message count delta"
deriving DecidableEq, Repr

/-- One telemetry call.  A Value of the time lag is recorded as the
nanosecond difference now - timestamp (Go converts it to float
seconds; the conversion is monotone and is not modelled). -/
inductive TeleEvent
  | value (name : MetricName) (v : Int)
  | count (name : MetricName) (v : Int)
deriving DecidableEq, Repr

/-- One line sent to the standard logger by the handler. -/
inductive LogEntry
  | errLine (e : TapErr)                           -- log.Print(e)
  | countMismatch (expected : Int) (actual : Nat)  -- the Logplex-Msg-Count diagnostic
deriving DecidableEq, Repr

/-- The observable outcome of one request. -/
structure HandlerOutput (α : Type) where
  status : Nat
  body : List Nat
  presized : Option Nat
  sink : Option (List SyslogMessage × α)
  events : List TeleEvent
  logs : List LogEntry
deriving DecidableEq, Repr

/-- Model of strconv.Atoi with the error discarded, as in
`expectedCount, _ := strconv.Atoi(...)`: an optional sign followed by
at least one digit; a syntax failure yields 0; a value outside the
64-bit int range yields the clamped extreme (ParseInt returns the
maximum magnitude value together with ErrRange). -/
def goAtoi (s : List Nat) : Int :=
  let (neg, ds) : Bool × List Nat :=
    match s with
    | 43 :: rest => (false, rest)
    | 45 :: rest => (true, rest)
    | _ => (false, s)
  if ds = [] then 0
  else if ds.all (fun c => 48 ≤ c ∧ c ≤ 57) then
    let v : Int := (digitsVal ds : Nat)
    let v := if neg then -v else v
    if v > 9223372036854775807 then 9223372036854775807
    else if v < -9223372036854775808 then -9223372036854775808
    else v
  else 0

/-- Model of Handler.ServeHTTP: context resolution failure answers
418 (http.StatusTeapot) with the error text and a newline (http.Error)
and counts a context error; otherwise the body is decoded, the sink is
invoked when at least one record was decoded, a time-lag value is
emitted per record, every accumulated error is logged, one request is
counted, and a positive Logplex-Msg-Count header yields the
message-count-delta value and, when nonzero, a diagnostic log line. -/
def ServeHTTP {α : Type} (getContext : Request → Except (List Nat) α)
    (r : Request) (now : Int) : HandlerOutput α :=
  match getContext r with
  | .error e =>
    { status := 418
      body := e ++ [10]
      presized := none
      sink := none
      events := [.count .contextError 1]
      logs := [] }
  | .ok ctx =>
    let expectedCount : Int := goAtoi r.msgCountHeader
    let presized : Option Nat :=
      if 0 < expectedCount ∧ expectedCount ≤ 10 then some expectedCount.toNat else none
    let res := ReadSyslogMessages [] r.body
    { status := 200
      body := []
      presized := presized
      sink := if res.1.length ≠ 0 then some (res.1, ctx) else none
      events :=
        res.1.map (fun x => TeleEvent.value .timeLag (now - x.Timestamp.instant))
          ++ [.count .request 1]
          ++ (if 0 < expectedCount then
                [.value .msgCountDelta (expectedCount - res.1.length)] else [])
      logs :=
        res.2.map LogEntry.errLine
          ++ (if 0 < expectedCount ∧ (res.1.length : Int) ≠ expectedCount then
                [.countMismatch expectedCount res.1.length] else []) }

/-! ### The log-line telemetry formatter (telemetry.go)

printAppMetric formats one metric as a log line.  A Go interface value
is modelled by its dynamic kind: any integer kind, a floating kind
(whose JSON rendering is carried as bytes, since floating point
formatting is not modelled), or any non-numeric kind.  The emitted
line is returned as bytes; none models the silent drop of non-numeric
values. -/

/-- A Go interface{} value as seen by the type switch of
printAppMetric. -/
inductive GoValue
  | int (n : Int)            -- int, int8..int64, uint..uint64
  | float (render : List Nat) -- float32/float64, with its JSON rendering
  | other                     -- any non-numeric kind
deriving DecidableEq, Repr

/-- Decimal ASCII digits of a Nat (fuelled; fuel = n + 1 suffices). -/
def natDigitsAux : Nat → Nat → List Nat
  | 0, _ => []
  | f + 1, n => if n < 10 then [48 + n] else natDigitsAux f (n / 10) ++ [48 + n % 10]

/-- Decimal ASCII rendering of a Nat, as fmt "%v" prints it. -/
def natToDec (n : Nat) : List Nat := natDigitsAux (n + 1) n

/-- Decimal ASCII rendering of an Int (json.Marshal of a Go integer). -/
def intToDec (n : Int) : List Nat :=
  if n < 0 then 45 :: natToDec n.natAbs else natToDec n.natAbs

/-- JSON string quoting as encoding/json renders a name: surrounding
quotes; backslash, quote, newline, carriage return and tab escaped;
other control bytes and the HTML characters angle brackets and
ampersand as unicode escapes; everything else verbatim. -/
def jsonQuoteChar (c : Nat) : List Nat :=
  if c = 34 then [92, 34]
  else if c = 92 then [92, 92]
  else if c = 10 then [92, 110]
  else if c = 13 then [92, 114]
  else if c = 9 then [92, 116]
  else if c < 32 then [92, 117, 48, 48] ++ natToDec (c / 16) ++
    (if c % 16 < 10 then [48 + c % 16] else [97 + c % 16 - 10])
  else if c = 60 then [92, 117, 48, 48, 51, 99]
  else if c = 62 then [92, 117, 48, 48, 51, 101]
  else if c = 38 then [92, 117, 48, 48, 50, 54]
  else [c]

/-- json.Marshal of a string value. -/
def jsonQuote (s : List Nat) : List Nat := 34 :: s.flatMap jsonQuoteChar ++ [34]

/-- The bytes of "APP_METRIC ". -/
def appMetricPrefix : List Nat := [65, 80, 80, 95, 77, 69, 84, 82, 73, 67, 32]

/-- The line printAppMetric assembles, given the already-marshalled
value: APP_METRIC {"stat": name, "key": value}.  The braces and the
inner quotes are written as byte values 123, 125 and 34. -/
def appMetricLine (key : List Nat) (name : List Nat) (v : List Nat) : List Nat :=
  appMetricPrefix ++ [123] ++ [34, 115, 116, 97, 116, 34, 58, 32] ++ jsonQuote name
    ++ [44, 32, 34] ++ key ++ [34, 58, 32] ++ v ++ [125]

/-- The bytes of the key "value". -/
def valueKey : List Nat := [118, 97, 108, 117, 101]

/-- The bytes of the key "count". -/
def countKey : List Nat := [99, 111, 117, 110, 116]

/-- Model of logtap printAppMetric: numeric values are marshalled and
printed as one line, any other value is silently dropped. -/
def printAppMetric (key : List Nat) (value : GoValue) (name : List Nat) :
    Option (List Nat) :=
  match value with
  | .int n => some (appMetricLine key name (intToDec n))
  | .float r => some (appMetricLine key name r)
  | .other => none

/-- Model of the logTelemetry Value method. -/
def logTelemetryValue (value : GoValue) (name : List Nat) : Option (List Nat) :=
  printAppMetric valueKey value name

/-- Model of the logTelemetry Count method (its argument is a Go int,
always numeric). -/
def logTelemetryCount (value : Int) (name : List Nat) : Option (List Nat) :=
  printAppMetric countKey (.int value) name

/-- The line shape claimed by the specification for the log-line
telemetry implementation: METRIC {"stat": name, "key": value}.  This
definition follows the words of the spec, to be compared with the line
the code emits. -/
def specMetricLine (key : List Nat) (name : List Nat) (v : List Nat) : List Nat :=
  [77, 69, 84, 82, 73, 67, 32] ++ [123] ++ [34, 115, 116, 97, 116, 34, 58, 32]
    ++ jsonQuote name ++ [44, 32, 34] ++ key ++ [34, 58, 32] ++ v ++ [125]

/-! ### Further specification-side definitions used by the claims -/

/-- The encoding of the tokenizer round-trip property: the decimal
length of the payload, one space, the payload. -/
def encodeFrame (p : List Nat) : List Nat := natToDec p.length ++ 32 :: p

/-- The message of a successful parse, if any. -/
def okOf : Except TapErr SyslogMessage → Option SyslogMessage
  | .ok m => some m
  | .error _ => none

/-- A context getter that always succeeds with the integer context 0,
used only to build concrete witnesses. -/
def okResolver : Request → Except (List Nat) Int := fun _ => .ok 0

/-- A context getter that always fails with the text oops, used only
to build concrete witnesses. -/
def errResolver : Request → Except (List Nat) Int := fun _ => .error [111, 111, 112, 115]

/-- A nonempty byte run that the UTF-8 decoder accepts as one whole
character: decoding it consumes exactly the run and does not signal an
invalid encoding. -/
def IsRune (r : List Nat) : Prop :=
  r ≠ [] ∧ (decodeRune r).2 = r.length
    ∧ ¬((decodeRune r).1 = RuneError ∧ (decodeRune r).2 = 1)

/-- The sanitizer contract, written from the words of the
specification: the output decomposes the input into decodable
character runs, preserved verbatim, and invalid bytes (positions at
which the decoder signals an invalid encoding), each replaced by
exactly one replacement character (the bytes 0xEF 0xBF 0xBD encoding
U+FFFD).  Maximal valid runs are concatenations of adjacent preserved
character runs, so they are preserved verbatim as well. -/
inductive SanitizesTo : List Nat → List Nat → Prop
  | nil : SanitizesTo [] []
  | rune (r s out : List Nat) : IsRune r → SanitizesTo s out →
      SanitizesTo (r ++ s) (r ++ out)
  | bad (b : Nat) (s out : List Nat) :
      (decodeRune (b :: s)).1 = RuneError → (decodeRune (b :: s)).2 = 1 →
      SanitizesTo s out → SanitizesTo (b :: s) (239 :: 191 :: 189 :: out)

/-- The sample frame payload of the repository tests: priority 45,
version 1, timestamp 2014-01-09T20:34:44.651004+00:00, fields host,
heroku, api, a dash, and a free-text message. -/
def sampleMessage : List Nat :=
  [60, 52, 53, 62, 49, 32, 50, 48, 49, 52, 45, 48, 49, 45, 48, 57, 84, 50, 48, 58, 51,
   52, 58, 52, 52, 46, 54, 53, 49, 48, 48, 52, 43, 48, 48, 58, 48, 48, 32, 104, 111,
   115, 116, 32, 104, 101, 114, 111, 107, 117, 32, 97, 112, 105, 32, 45, 32, 65, 100,
   100, 32, 90, 79, 77, 71, 90, 79, 77, 71, 32, 99, 111, 110, 102, 105, 103, 32, 98,
   121, 32, 102, 111, 111, 64, 101, 120, 97, 109, 112, 108, 101, 46, 99, 111, 109]

/-- The capture groups of the sample frame. -/
def sampleGroups : SyslogGroups :=
  ⟨[52, 53], [49],
   [50, 48, 49, 52, 45, 48, 49, 45, 48, 57, 84, 50, 48, 58, 51, 52, 58, 52, 52, 46,
    54, 53, 49, 48, 48, 52, 43, 48, 48, 58, 48, 48],
   [104, 111, 115, 116], [104, 101, 114, 111, 107, 117], [97, 112, 105], [45],
   [65, 100, 100, 32, 90, 79, 77, 71, 90, 79, 77, 71, 32, 99, 111, 110, 102, 105,
    103, 32, 98, 121, 32, 102, 111, 111, 64, 101, 120, 97, 109, 112, 108, 101, 46,
    99, 111, 109]⟩

/-! ## Theorems -/

/-! ### Tokenizer lemmas -/

/-- tokenize never looks at its atEOF flag: with an empty buffer both
the explicit end-of-stream case and the no-space-found case answer
need-more-data, and with a nonempty buffer the flag is unused.  This
justifies modelling the bufio.Scanner loop with a fixed flag. -/
theorem tokenize_atEOF_irrelevant (data : List Nat) (a b : Bool) :
    tokenize data a = tokenize data b := by
  cases data with
  | nil => cases a <;> cases b <;> simp [tokenize, List.findIdx?]
  | cons x xs => simp [tokenize]

theorem findIdx?_space_digits (ds : List Nat) (rest : List Nat)
    (h : ds.all (fun c => 48 ≤ c ∧ c ≤ 57) = true) :
    ∀ i, List.findIdx? (fun x => x = 32) (ds ++ 32 :: rest) i = some (i + ds.length) := by
  induction ds with
  | nil => intro i; simp [List.findIdx?_cons]
  | cons d ds ih =>
    simp only [List.all_cons, Bool.and_eq_true, decide_eq_true_eq] at h
    intro i
    rw [List.cons_append, List.findIdx?_cons]
    have hd : ¬ (d = 32) := by omega
    simp only [decide_eq_true_eq, if_neg hd]
    rw [ih h.2 (i + 1)]
    simp only [List.length_cons]
    congr 1
    omega

theorem natDigitsAux_spec : ∀ f n, n < f →
    natDigitsAux f n ≠ [] ∧ (natDigitsAux f n).all (fun c => 48 ≤ c ∧ c ≤ 57) = true
      ∧ digitsVal (natDigitsAux f n) = n := by
  intro f
  induction f with
  | zero => intro n h; omega
  | succ f ih =>
    intro n h
    by_cases h10 : n < 10
    · refine ⟨by simp [natDigitsAux, h10], ?_, ?_⟩
      · simp [natDigitsAux, h10]; omega
      · simp [natDigitsAux, h10, digitsVal]
    · have hrec := ih (n / 10) (by omega)
      rw [natDigitsAux, if_neg h10]
      refine ⟨by simp, ?_, ?_⟩
      · rw [List.all_append]
        simp only [hrec.2.1, List.all_cons, List.all_nil, Bool.and_true, Bool.true_and,
          decide_eq_true_eq]
        omega
      · rw [digitsVal, List.foldl_append]
        have hv := hrec.2.2
        rw [digitsVal] at hv
        rw [hv]
        simp only [List.foldl_cons, List.foldl_nil]
        omega

theorem natToDec_spec (n : Nat) :
    natToDec n ≠ [] ∧ (natToDec n).all (fun c => 48 ≤ c ∧ c ≤ 57) = true
      ∧ digitsVal (natToDec n) = n :=
  natDigitsAux_spec (n + 1) n (Nat.lt_succ_self n)

/-- Claim C5 helper: the fatal branch of tokenize.  When the prefix
before the first space fails ParseUint (bad digits or a value above
65535), tokenize answers zero advance, no token and that error. -/
theorem tokenize_fatal_of_parse_error {data : List Nat} {atEOF : Bool} {i : Nat}
    {e : NumError} (hs : List.findIdx? (fun x => x = 32) data = some i)
    (hp : parseUint16 (data.take i) = .error e) :
    tokenize data atEOF = (0, none, some e) := by
  have hne : data ≠ [] := by
    intro hnil
    rw [hnil] at hs
    simp [List.findIdx?] at hs
  simp [tokenize, hs, hp, hne]

/-! ### Claim theorems for the tokenizer -/

/-- Claim C5: for every buffer whose first space-terminated prefix is
not an unsigned decimal integer, or whose decimal length value exceeds
65535, tokenize returns a non-nil (fatal) error, zero consumed bytes,
and no payload. -/
theorem tokenize_fatal_framing (data : List Nat) (atEOF : Bool) (i : Nat) (e : NumError)
    (hs : List.findIdx? (fun x => x = 32) data = some i)
    (hp : parseUint16 (data.take i) = .error e) :
    tokenize data atEOF = (0, none, some e) :=
  tokenize_fatal_of_parse_error hs hp

/-- Witness for claim C5: the oversized length token 65536 from the Go
test (input bytes of the string starting with 65536 and a space) is a
fatal framing error with zero consumed bytes. -/
theorem tokenize_fatal_framing_witness :
    List.findIdx? (fun x => x = 32) [54, 53, 53, 51, 54, 32, 89, 79, 76, 79] = some 5
    ∧ parseUint16 ([54, 53, 53, 51, 54, 32, 89, 79, 76, 79].take 5) = .error .overflow
    ∧ tokenize [54, 53, 53, 51, 54, 32, 89, 79, 76, 79] true = (0, none, some .overflow) :=
  ⟨by decide, by decide,
    tokenize_fatal_framing [54, 53, 53, 51, 54, 32, 89, 79, 76, 79] true 5 .overflow
      (by decide) (by decide)⟩

/-- Claim C4 counterexample: the round-trip fails for a payload of
65536 bytes: its encoding tokenizes to a fatal range error, not to the
payload.  So the round-trip property does not hold for every payload. -/
theorem tokenize_roundTrip_counterexample :
    tokenize (encodeFrame (List.replicate 65536 0)) false = (0, none, some NumError.overflow)
    ∧ tokenize (encodeFrame (List.replicate 65536 0)) false
        ≠ ((encodeFrame (List.replicate 65536 0)).length, some (List.replicate 65536 0), none) := by
  have h1 : encodeFrame (List.replicate 65536 0) = [54, 53, 53, 51, 54] ++ 32 :: List.replicate 65536 0 := by
    rw [encodeFrame, List.length_replicate]
    rw [show natToDec 65536 = [54, 53, 53, 51, 54] by decide]
  have h2 : tokenize ([54, 53, 53, 51, 54] ++ 32 :: List.replicate 65536 0) false
      = (0, none, some NumError.overflow) := by
    apply tokenize_fatal_of_parse_error (i := 5)
    · exact findIdx?_space_digits [54, 53, 53, 51, 54] _ (by decide) 0
    · rw [List.take_left' (by decide)]
      rfl
  refine ⟨by rw [h1]; exact h2, ?_⟩
  rw [h1, h2]
  intro hc
  injection hc with h3 h4
  injection h4 with h5 h6
  exact Option.noConfusion h5

/-- Claim C4 (amended with the bound the code enforces): for every
payload of at most 65535 bytes, tokenizing its encoding with
end-of-stream not yet reached consumes the whole encoding and yields
the payload and no error. -/
theorem tokenize_roundTrip (p : List Nat) (h : p.length ≤ 65535) :
    tokenize (encodeFrame p) false = ((encodeFrame p).length, some p, none) := by
  obtain ⟨hne, hdg, hval⟩ := natToDec_spec p.length
  have hfind : List.findIdx? (fun x => x = 32) (natToDec p.length ++ 32 :: p) 0
      = some (natToDec p.length).length := by
    rw [findIdx?_space_digits _ _ hdg 0]
    simp
  have hparse : parseUint16 ((natToDec p.length ++ 32 :: p).take (natToDec p.length).length)
      = .ok p.length := by
    rw [List.take_left, parseUint16, if_neg hne, if_pos hdg]
    simp only [hval, if_pos h]
  have hdrop : List.drop ((natToDec p.length).length + 1) (natToDec p.length ++ 32 :: p) = p := by
    have hsplit : natToDec p.length ++ 32 :: p = (natToDec p.length ++ [32]) ++ p := by simp
    rw [hsplit, List.drop_left' (by simp [List.length_append])]
  have hlen : (natToDec p.length ++ 32 :: p).length
      = (natToDec p.length).length + 1 + p.length := by
    simp [List.length_append]
    omega
  rw [encodeFrame]
  simp only [tokenize, hfind, hparse, hdrop, hlen]
  rw [if_neg (by simp), if_pos (by omega), List.take_length]

/-- Witness for claim C4: the two-byte payload of the letters h and i
encodes to the five bytes 2, space, h, i and round-trips. -/
theorem tokenize_roundTrip_witness :
    ([104, 105] : List Nat).length ≤ 65535
    ∧ tokenize (encodeFrame [104, 105]) false
        = ((encodeFrame [104, 105]).length, some [104, 105], none) :=
  ⟨by decide, tokenize_roundTrip [104, 105] (by decide)⟩

/-! ### UTF-8 sanitizer: claim C1 -/

theorem decodeRune_size_pos (b : Nat) (rest : List Nat) :
    1 ≤ (decodeRune (b :: rest)).2 := by
  have h2 : ∀ b0 l, 1 ≤ (decode2 b0 l).2 := by
    intro b0 l
    cases l with
    | nil => simp [decode2]
    | cons x xs =>
      rw [decode2]
      split <;> simp
  have h3 : ∀ b0 l, 1 ≤ (decode3 b0 l).2 := by
    intro b0 l
    match l with
    | [] => simp [decode3]
    | [x] => simp [decode3]
    | x :: y :: xs =>
      rw [decode3, apply_ite Prod.snd]
      repeat' split
      all_goals omega
  have h4 : ∀ b0 l, 1 ≤ (decode4 b0 l).2 := by
    intro b0 l
    match l with
    | [] => simp [decode4]
    | [x] => simp [decode4]
    | [x, y] => simp [decode4]
    | x :: y :: z :: xs =>
      rw [decode4, apply_ite Prod.snd]
      repeat' split
      all_goals omega
  rw [decodeRune]
  split_ifs <;> simp [h2, h3, h4]

theorem decode2_local {b0 c n : Nat} {rest : List Nat}
    (h : decode2 b0 rest = (c, n)) (hg : ¬(c = RuneError ∧ n = 1)) :
    n = 2 ∧ 1 ≤ rest.length ∧ ∀ ys, decode2 b0 (rest.take 1 ++ ys) = (c, n) := by
  cases rest with
  | nil =>
    rw [decode2] at h
    injection h with hc hn
    exact absurd ⟨hc.symm, hn.symm⟩ hg
  | cons b1 t =>
    rw [decode2] at h
    by_cases hr : 128 ≤ b1 ∧ b1 ≤ 191
    · rw [if_pos hr] at h
      injection h with hc hn
      refine ⟨hn.symm, by simp, fun ys => ?_⟩
      have ht : (b1 :: t).take 1 ++ ys = b1 :: ys := rfl
      rw [ht, decode2, if_pos hr, hc, hn]
    · rw [if_neg hr] at h
      injection h with hc hn
      exact absurd ⟨hc.symm, hn.symm⟩ hg

theorem decode3_local {b0 c n : Nat} {rest : List Nat}
    (h : decode3 b0 rest = (c, n)) (hg : ¬(c = RuneError ∧ n = 1)) :
    n = 3 ∧ 2 ≤ rest.length ∧ ∀ ys, decode3 b0 (rest.take 2 ++ ys) = (c, n) := by
  match rest with
  | [] =>
    rw [decode3] at h
    injection h with hc hn
    exact absurd ⟨hc.symm, hn.symm⟩ hg
  | [b1] =>
    rw [decode3] at h
    injection h with hc hn
    exact absurd ⟨hc.symm, hn.symm⟩ hg
  | b1 :: b2 :: t =>
    rw [decode3] at h
    by_cases hr : (if b0 = 224 then 160 else 128) ≤ b1 ∧ b1 ≤ (if b0 = 237 then 159 else 191)
        ∧ 128 ≤ b2 ∧ b2 ≤ 191
    · rw [if_pos hr] at h
      injection h with hc hn
      refine ⟨hn.symm, by simp, fun ys => ?_⟩
      have ht : (b1 :: b2 :: t).take 2 ++ ys = b1 :: b2 :: ys := rfl
      rw [ht, decode3, if_pos hr, hc, hn]
    · rw [if_neg hr] at h
      injection h with hc hn
      exact absurd ⟨hc.symm, hn.symm⟩ hg

theorem decode4_local {b0 c n : Nat} {rest : List Nat}
    (h : decode4 b0 rest = (c, n)) (hg : ¬(c = RuneError ∧ n = 1)) :
    n = 4 ∧ 3 ≤ rest.length ∧ ∀ ys, decode4 b0 (rest.take 3 ++ ys) = (c, n) := by
  match rest with
  | [] =>
    rw [decode4] at h
    injection h with hc hn
    exact absurd ⟨hc.symm, hn.symm⟩ hg
  | [b1] =>
    rw [decode4] at h
    injection h with hc hn
    exact absurd ⟨hc.symm, hn.symm⟩ hg
  | [b1, b2] =>
    rw [decode4] at h
    injection h with hc hn
    exact absurd ⟨hc.symm, hn.symm⟩ hg
  | b1 :: b2 :: b3 :: t =>
    rw [decode4] at h
    by_cases hr : (if b0 = 240 then 144 else 128) ≤ b1 ∧ b1 ≤ (if b0 = 244 then 143 else 191)
        ∧ 128 ≤ b2 ∧ b2 ≤ 191 ∧ 128 ≤ b3 ∧ b3 ≤ 191
    · rw [if_pos hr] at h
      injection h with hc hn
      refine ⟨hn.symm, by simp, fun ys => ?_⟩
      have ht : (b1 :: b2 :: b3 :: t).take 3 ++ ys = b1 :: b2 :: b3 :: ys := rfl
      rw [ht, decode4, if_pos hr, hc, hn]
    · rw [if_neg hr] at h
      injection h with hc hn
      exact absurd ⟨hc.symm, hn.symm⟩ hg

/-- Locality of the decoder: a successfully decoded sequence of length
n is determined by its first n bytes, so it decodes the same inside
any continuation.  It also consumes at least two bytes (the one-byte
successes are ASCII, handled separately). -/
theorem decodeRune_local {b0 : Nat} {rest : List Nat} {c n : Nat}
    (hb : 128 ≤ b0) (h : decodeRune (b0 :: rest) = (c, n))
    (hg : ¬(c = RuneError ∧ n = 1)) :
    2 ≤ n ∧ n - 1 ≤ rest.length
      ∧ ∀ ys, decodeRune (b0 :: (rest.take (n - 1) ++ ys)) = (c, n) := by
  rw [decodeRune] at h
  rw [if_neg (by omega)] at h
  by_cases h194 : b0 < 194
  · rw [if_pos h194] at h
    injection h with hc hn
    exact absurd ⟨hc.symm, hn.symm⟩ hg
  rw [if_neg h194] at h
  by_cases h224 : b0 < 224
  · rw [if_pos h224] at h
    obtain ⟨hn2, hlen, hloc⟩ := decode2_local h hg
    subst hn2
    refine ⟨by omega, by omega, fun ys => ?_⟩
    rw [decodeRune, if_neg (by omega), if_neg h194, if_pos h224]
    exact hloc ys
  rw [if_neg h224] at h
  by_cases h240 : b0 < 240
  · rw [if_pos h240] at h
    obtain ⟨hn3, hlen, hloc⟩ := decode3_local h hg
    subst hn3
    refine ⟨by omega, by omega, fun ys => ?_⟩
    rw [decodeRune, if_neg (by omega), if_neg h194, if_neg h224, if_pos h240]
    exact hloc ys
  rw [if_neg h240] at h
  by_cases h245 : b0 < 245
  · rw [if_pos h245] at h
    obtain ⟨hn4, hlen, hloc⟩ := decode4_local h hg
    subst hn4
    refine ⟨by omega, by omega, fun ys => ?_⟩
    rw [decodeRune, if_neg (by omega), if_neg h194, if_neg h224, if_neg h240, if_pos h245]
    exact hloc ys
  · rw [if_neg h245] at h
    injection h with hc hn
    exact absurd ⟨hc.symm, hn.symm⟩ hg

/-- The fuel of the validity scan is irrelevant as long as it is at
least the length of the input. -/
theorem validF_congr : ∀ f g s, s.length ≤ f → s.length ≤ g → validF f s = validF g s := by
  intro f
  induction f with
  | zero =>
    intro g s hf hg
    have hnil : s = [] := List.length_eq_zero.mp (Nat.le_zero.mp hf)
    subst hnil
    cases g <;> simp [validF]
  | succ f ih =>
    intro g s hf hg
    cases s with
    | nil => cases g <;> simp [validF]
    | cons b rest =>
      have hf2 : rest.length ≤ f := by
        simp only [List.length_cons] at hf
        omega
      cases g with
      | zero => simp at hg
      | succ g2 =>
        have hg2 : rest.length ≤ g2 := by
          simp only [List.length_cons] at hg
          omega
        simp only [validF]
        by_cases hb : b < 128
        · rw [if_pos hb, if_pos hb]
          exact ih g2 rest hf2 hg2
        · rw [if_neg hb, if_neg hb]
          by_cases hbad : (decodeRune (b :: rest)).1 = RuneError
              ∧ (decodeRune (b :: rest)).2 = 1
          · rw [if_pos hbad, if_pos hbad]
          · rw [if_neg hbad, if_neg hbad]
            have hpos := decodeRune_size_pos b rest
            apply ih
            · simp only [List.length_drop, List.length_cons]
              omega
            · simp only [List.length_drop, List.length_cons]
              omega

theorem validString_cons_of_lt {b : Nat} (s : List Nat) (hb : b < 128) :
    validString (b :: s) = validString s := by
  simp only [validString, List.length_cons]
  rw [validF, if_pos hb]

/-- Prepending one decodable chunk to a string does not change its
validity. -/
theorem validF_prepend_chunk {b0 c n : Nat} {T ys : List Nat}
    (h2 : 2 ≤ n) (hT : T.length = n - 1)
    (hdec : decodeRune (b0 :: (T ++ ys)) = (c, n))
    (hg : ¬(c = RuneError ∧ n = 1)) (hb : 128 ≤ b0) :
    validString (b0 :: (T ++ ys)) = validString ys := by
  simp only [validString, List.length_cons]
  rw [validF, if_neg (by omega), hdec]
  rw [if_neg hg]
  have hdrop : List.drop n (b0 :: (T ++ ys)) = ys := by
    obtain ⟨m, rfl⟩ : ∃ m, n = m + 1 := ⟨n - 1, by omega⟩
    rw [List.drop_succ_cons]
    exact List.drop_left' (by omega)
  dsimp only
  rw [hdrop]
  exact validF_congr (T ++ ys).length ys.length ys
    (by simp only [List.length_append]; omega) (le_refl _)

theorem validString_fffd (ys : List Nat) :
    validString (239 :: 191 :: 189 :: ys) = validString ys := by
  show validString (239 :: ([191, 189] ++ ys)) = validString ys
  apply validF_prepend_chunk (c := RuneError) (n := 3)
  · omega
  · rfl
  · show decodeRune (239 :: 191 :: 189 :: ys) = (RuneError, 3)
    simp [decodeRune, decode3, RuneError]
  · simp [RuneError]
  · omega

theorem validString_chunk {b0 : Nat} {rest : List Nat} {c n : Nat}
    (hb : 128 ≤ b0) (h : decodeRune (b0 :: rest) = (c, n))
    (hg : ¬(c = RuneError ∧ n = 1)) (ys : List Nat) :
    validString (b0 :: (rest.take (n - 1) ++ ys)) = validString ys := by
  obtain ⟨h2, hlen, hloc⟩ := decodeRune_local hb h hg
  refine validF_prepend_chunk h2 ?_ (hloc ys) hg hb
  rw [List.length_take]
  omega

/-- The repair loop always produces a valid string. -/
theorem validString_fixF : ∀ f s, s.length ≤ f → validString (fixF f s) = true := by
  intro f
  induction f with
  | zero =>
    intro s hf
    have hnil : s = [] := List.length_eq_zero.mp (Nat.le_zero.mp hf)
    subst hnil
    rfl
  | succ f ih =>
    intro s hf
    cases s with
    | nil => rfl
    | cons b rest =>
      have hf2 : rest.length ≤ f := by
        simp only [List.length_cons] at hf
        omega
      rw [fixF]
      by_cases hb : b < 128
      · rw [if_pos hb, validString_cons_of_lt _ hb]
        exact ih rest hf2
      · by_cases hbad : (decodeRune (b :: rest)).1 = RuneError
            ∧ (decodeRune (b :: rest)).2 = 1
        · rw [if_neg hb, if_pos hbad, validString_fffd]
          exact ih rest hf2
        · rw [if_neg hb, if_neg hbad]
          rcases hd : decodeRune (b :: rest) with ⟨c, n⟩
          dsimp only
          have hg : ¬(c = RuneError ∧ n = 1) := by
            rw [hd] at hbad
            exact hbad
          obtain ⟨h2, hlen, hloc⟩ := decodeRune_local (by omega) hd hg
          have htake : List.take n (b :: rest) = b :: rest.take (n - 1) := by
            obtain ⟨m, rfl⟩ : ∃ m, n = m + 1 := ⟨n - 1, by omega⟩
            rw [List.take_succ_cons]
            simp
          have hdrop2 : List.drop n (b :: rest) = List.drop (n - 1) rest := by
            obtain ⟨m, rfl⟩ : ∃ m, n = m + 1 := ⟨n - 1, by omega⟩
            rw [List.drop_succ_cons]
            simp
          rw [htake, hdrop2, List.cons_append]
          rw [validString_chunk (by omega) hd hg]
          refine ih _ ?_
          simp only [List.length_drop]
          omega

/-- An ASCII byte is a decodable chunk. -/
theorem isRune_ascii {b : Nat} (hb : b < 128) : IsRune [b] := by
  refine ⟨by simp, ?_, ?_⟩
  · simp [decodeRune, hb]
  · simp only [decodeRune, if_pos hb]
    simp [RuneError]
    omega

/-- A successfully decoded multibyte sequence is a decodable chunk. -/
theorem isRune_chunk {b c n : Nat} {rest : List Nat}
    (hb : ¬ b < 128) (hd : decodeRune (b :: rest) = (c, n))
    (hg : ¬(c = RuneError ∧ n = 1)) : IsRune (b :: rest.take (n - 1)) := by
  obtain ⟨h2, hlen, hloc⟩ := decodeRune_local (by omega) hd hg
  have hdec := hloc []
  rw [List.append_nil] at hdec
  refine ⟨by simp, ?_, ?_⟩
  · rw [hdec]
    simp only [List.length_cons, List.length_take]
    omega
  · rw [hdec]
    exact hg

theorem sanitizesTo_fixF : ∀ f s, s.length ≤ f → SanitizesTo s (fixF f s) := by
  intro f
  induction f with
  | zero =>
    intro s hf
    have hnil : s = [] := List.length_eq_zero.mp (Nat.le_zero.mp hf)
    subst hnil
    exact SanitizesTo.nil
  | succ f ih =>
    intro s hf
    cases s with
    | nil => exact SanitizesTo.nil
    | cons b rest =>
      have hf2 : rest.length ≤ f := by
        simp only [List.length_cons] at hf
        omega
      rw [fixF]
      by_cases hb : b < 128
      · rw [if_pos hb]
        exact SanitizesTo.rune [b] rest (fixF f rest) (isRune_ascii hb) (ih rest hf2)
      · by_cases hbad : (decodeRune (b :: rest)).1 = RuneError
            ∧ (decodeRune (b :: rest)).2 = 1
        · rw [if_neg hb, if_pos hbad]
          exact SanitizesTo.bad b rest (fixF f rest) hbad.1 hbad.2 (ih rest hf2)
        · rw [if_neg hb, if_neg hbad]
          rcases hd : decodeRune (b :: rest) with ⟨c, n⟩
          dsimp only
          have hg : ¬(c = RuneError ∧ n = 1) := by
            rw [hd] at hbad
            exact hbad
          obtain ⟨h2, hlen, hloc⟩ := decodeRune_local (by omega) hd hg
          have htake : List.take n (b :: rest) = b :: rest.take (n - 1) := by
            obtain ⟨m, rfl⟩ : ∃ m, n = m + 1 := ⟨n - 1, by omega⟩
            rw [List.take_succ_cons]
            simp
          have hdrop2 : List.drop n (b :: rest) = List.drop (n - 1) rest := by
            obtain ⟨m, rfl⟩ : ∃ m, n = m + 1 := ⟨n - 1, by omega⟩
            rw [List.drop_succ_cons]
            simp
          rw [htake, hdrop2]
          have hsplit : b :: rest = (b :: rest.take (n - 1)) ++ List.drop (n - 1) rest := by
            rw [List.cons_append, List.take_append_drop]
          rw [hsplit]
          exact SanitizesTo.rune _ _ _ (isRune_chunk hb hd hg)
            (ih _ (by simp only [List.length_drop]; omega))

theorem sanitizesTo_of_valid : ∀ f s, s.length ≤ f → validF f s = true → SanitizesTo s s := by
  intro f
  induction f with
  | zero =>
    intro s hf _
    have hnil : s = [] := List.length_eq_zero.mp (Nat.le_zero.mp hf)
    subst hnil
    exact SanitizesTo.nil
  | succ f ih =>
    intro s hf hv
    cases s with
    | nil => exact SanitizesTo.nil
    | cons b rest =>
      have hf2 : rest.length ≤ f := by
        simp only [List.length_cons] at hf
        omega
      rw [validF] at hv
      by_cases hb : b < 128
      · rw [if_pos hb] at hv
        exact SanitizesTo.rune [b] rest rest (isRune_ascii hb) (ih rest hf2 hv)
      · rw [if_neg hb] at hv
        by_cases hbad : (decodeRune (b :: rest)).1 = RuneError
            ∧ (decodeRune (b :: rest)).2 = 1
        · rw [if_pos hbad] at hv
          exact absurd hv (by simp)
        · rw [if_neg hbad] at hv
          rcases hd : decodeRune (b :: rest) with ⟨c, n⟩
          rw [hd] at hv
          dsimp only at hv
          have hg : ¬(c = RuneError ∧ n = 1) := by
            rw [hd] at hbad
            exact hbad
          obtain ⟨h2, hlen, hloc⟩ := decodeRune_local (by omega) hd hg
          have hdrop2 : List.drop n (b :: rest) = List.drop (n - 1) rest := by
            obtain ⟨m, rfl⟩ : ∃ m, n = m + 1 := ⟨n - 1, by omega⟩
            rw [List.drop_succ_cons]
            simp
          rw [hdrop2] at hv
          have hsan := ih _ (by simp only [List.length_drop]; omega) hv
          have hsplit : b :: rest = (b :: rest.take (n - 1)) ++ List.drop (n - 1) rest := by
            rw [List.cons_append, List.take_append_drop]
          rw [hsplit]
          exact SanitizesTo.rune _ _ _ (isRune_chunk hb hd hg) hsan

theorem validString_ensureUtf8 (s : List Nat) : validString (ensureUtf8 s) = true := by
  rw [ensureUtf8]
  by_cases h : validString s = true
  · rw [if_pos h]
    exact h
  · rw [if_neg h]
    exact validString_fixF s.length s (le_refl _)

theorem ensureUtf8_of_valid {s : List Nat} (h : validString s = true) : ensureUtf8 s = s := by
  rw [ensureUtf8, if_pos h]

theorem sanitizesTo_ensureUtf8 (s : List Nat) : SanitizesTo s (ensureUtf8 s) := by
  rw [ensureUtf8]
  by_cases h : validString s = true
  · rw [if_pos h]
    exact sanitizesTo_of_valid s.length s (le_refl _) h
  · rw [if_neg h]
    exact sanitizesTo_fixF s.length s (le_refl _)

/-- Claim C1: the sanitizer is total (it is a function on all byte
sequences) and always returns a valid UTF-8 string; valid input is
returned unchanged; otherwise the input decomposes into decodable runs
preserved verbatim and invalid bytes replaced by exactly one
replacement character each. -/
theorem ensureUtf8_spec (s : List Nat) :
    validString (ensureUtf8 s) = true
    ∧ (validString s = true → ensureUtf8 s = s)
    ∧ SanitizesTo s (ensureUtf8 s) :=
  ⟨validString_ensureUtf8 s, fun h => ensureUtf8_of_valid h, sanitizesTo_ensureUtf8 s⟩

/-- Witness for claim C1: the valid two-rune string h, e-acute is kept
unchanged, and the invalid string h, byte 200, i sanitizes to a valid
string. -/
theorem ensureUtf8_spec_witness :
    validString [104, 195, 169] = true
    ∧ ensureUtf8 [104, 195, 169] = [104, 195, 169]
    ∧ validString (ensureUtf8 [104, 200, 105]) = true :=
  ⟨by decide, (ensureUtf8_spec [104, 195, 169]).2.1 (by decide),
    (ensureUtf8_spec [104, 200, 105]).1⟩

/-! ### Stream decoder: claim C2 -/

/-- The scanner loop and the declarative frame decomposition agree,
step by step with the same fuel: the accumulated messages are the
successfully parsed frames appended in stream order, and the
accumulated errors are the per-frame parse errors in order followed by
the terminal framing error when the scan stopped on one. -/
theorem readAux_eq_frames : ∀ (f : Nat) (ms : List SyslogMessage) (es : List TapErr)
    (data : List Nat),
    readAux f ms es data =
      (ms ++ (framesAux f data).1.filterMap (fun t => okOf (ParseSyslogMessage t)),
       es ++ (framesAux f data).1.filterMap (fun t => errOf (ParseSyslogMessage t))
          ++ ((framesAux f data).2.map TapErr.framing).toList) := by
  intro f
  induction f with
  | zero => intro ms es data; simp [readAux, framesAux]
  | succ f ih =>
    intro ms es data
    rw [readAux, framesAux]
    rcases htok : tokenize data true with ⟨adv, tok, err⟩
    match tok, err with
    | some t, err =>
      rcases hp : ParseSyslogMessage t with m | e
      · simp only [ih, hp, okOf, errOf, List.filterMap_cons]
        simp
      · simp only [ih, hp, okOf, errOf, List.filterMap_cons]
        simp
    | none, some e => simp
    | none, none => simp

/-- Claim C2: the stream decoder never discards decoded records: the
returned record list is the input slice followed by the records of all
successfully parsed frames in stream order; per-frame parse failures
only append their error and decoding continues; a fatal framing fault
stops the scan and its error is appended after the per-frame errors,
with all previously decoded records still returned. -/
theorem readSyslogMessages_spec (results : List SyslogMessage) (data : List Nat) :
    ReadSyslogMessages results data =
      (results ++ (syslogFrames data).1.filterMap (fun t => okOf (ParseSyslogMessage t)),
       (syslogFrames data).1.filterMap (fun t => errOf (ParseSyslogMessage t))
          ++ ((syslogFrames data).2.map TapErr.framing).toList) := by
  rw [ReadSyslogMessages, readAux_eq_frames, syslogFrames]
  simp

/-! ### Drain request handler: claims C6, C7, C8, C10 -/

/-- Claim C6: once context resolution succeeds the response status is
200 with an empty body, however many record-parse or framing errors
the body produced, and every accumulated decode error is written to
the log channel. -/
theorem serveHTTP_ok_status {α : Type} (g : Request → Except (List Nat) α)
    (r : Request) (now : Int) (ctx : α) (h : g r = .ok ctx) :
    (ServeHTTP g r now).status = 200 ∧ (ServeHTTP g r now).body = []
      ∧ ∀ e ∈ (ReadSyslogMessages [] r.body).2,
          LogEntry.errLine e ∈ (ServeHTTP g r now).logs := by
  refine ⟨by simp [ServeHTTP, h], by simp [ServeHTTP, h], fun e he => ?_⟩
  simp only [ServeHTTP, h, List.mem_append, List.mem_map]
  exact Or.inl ⟨e, he, rfl⟩

/-- Witness for claim C6: a trivially succeeding resolver and a body
that is pure framing garbage still answer 200 and log the error. -/
theorem serveHTTP_ok_status_witness :
    (okResolver (⟨[], [122, 111, 109, 103, 32, 98, 111, 103, 117, 115]⟩ : Request) = .ok 0)
    ∧ (ServeHTTP okResolver
        ⟨[], [122, 111, 109, 103, 32, 98, 111, 103, 117, 115]⟩ 0).status = 200
    ∧ (ServeHTTP okResolver
        ⟨[], [122, 111, 109, 103, 32, 98, 111, 103, 117, 115]⟩ 0).body = []
    ∧ ∀ e ∈ (ReadSyslogMessages []
          ([122, 111, 109, 103, 32, 98, 111, 103, 117, 115] : List Nat)).2,
        LogEntry.errLine e ∈ (ServeHTTP okResolver
          ⟨[], [122, 111, 109, 103, 32, 98, 111, 103, 117, 115]⟩ 0).logs := by
  have h := serveHTTP_ok_status okResolver
    ⟨[], [122, 111, 109, 103, 32, 98, 111, 103, 117, 115]⟩ 0 0 rfl
  exact ⟨rfl, h.1, h.2.1, h.2.2⟩

/-- Claim C7: a context resolution failure short-circuits the request:
the response is the client-error status 418 with the error text and a
newline as the body, exactly one context-error count is emitted, the
sink is never invoked, nothing is logged, and no other metric (request
included) is emitted. -/
theorem serveHTTP_context_error {α : Type} (g : Request → Except (List Nat) α)
    (r : Request) (now : Int) (e : List Nat) (h : g r = .error e) :
    ServeHTTP g r now =
      ⟨418, e ++ [10], none, none, [.count .contextError 1], []⟩
    ∧ 400 ≤ (ServeHTTP g r now).status ∧ (ServeHTTP g r now).status < 500 := by
  have hs : ServeHTTP g r now =
      ⟨418, e ++ [10], none, none, [.count .contextError 1], []⟩ := by
    simp [ServeHTTP, h]
  exact ⟨hs, by rw [hs]; norm_num, by rw [hs]; norm_num⟩

/-- Witness for claim C7: a resolver that refuses with the text oops. -/
theorem serveHTTP_context_error_witness :
    (errResolver (⟨[], []⟩ : Request) = .error [111, 111, 112, 115])
    ∧ ServeHTTP errResolver (⟨[], []⟩ : Request) 0 =
      ⟨418, [111, 111, 112, 115] ++ [10], none, none, [.count .contextError 1], []⟩ :=
  ⟨rfl, (serveHTTP_context_error errResolver ⟨[], []⟩ 0 [111, 111, 112, 115] rfl).1⟩

/-- Claim C8 counterexample: the header value 11 lies outside [1,10],
yet the handler emits the message-count-delta value metric (11 minus
the zero records of an empty body) and logs the nonzero diagnostic; so
values above 10 are not wholly ignored. -/
theorem msgCount_outside_bound_counterexample :
    goAtoi [49, 49] = 11
    ∧ ¬(1 ≤ (11 : Int) ∧ (11 : Int) ≤ 10)
    ∧ TeleEvent.value .msgCountDelta 11 ∈
        (ServeHTTP okResolver ⟨[49, 49], []⟩ 0).events
    ∧ LogEntry.countMismatch 11 0 ∈
        (ServeHTTP okResolver ⟨[49, 49], []⟩ 0).logs := by
  refine ⟨by decide, by omega, ?_, ?_⟩ <;> decide

/-- Claim C8 (amended to what the code does): the [1,10] bound gates
only the pre-sizing hint.  The delta metric and its nonzero diagnostic
are controlled by positivity alone: any positive header value emits
the delta metric equal to expected minus decoded count, while a
non-positive (or unparsable) header value emits no delta metric and no
diagnostic. -/
theorem msgCount_header_semantics {α : Type} (g : Request → Except (List Nat) α)
    (r : Request) (now : Int) (ctx : α) (h : g r = .ok ctx) :
    (¬(1 ≤ goAtoi r.msgCountHeader ∧ goAtoi r.msgCountHeader ≤ 10) →
        (ServeHTTP g r now).presized = none)
    ∧ (1 ≤ goAtoi r.msgCountHeader ∧ goAtoi r.msgCountHeader ≤ 10 →
        (ServeHTTP g r now).presized = some (goAtoi r.msgCountHeader).toNat)
    ∧ (0 < goAtoi r.msgCountHeader →
        TeleEvent.value .msgCountDelta
            (goAtoi r.msgCountHeader - (ReadSyslogMessages [] r.body).1.length)
          ∈ (ServeHTTP g r now).events)
    ∧ (goAtoi r.msgCountHeader ≤ 0 →
        (∀ v, TeleEvent.value .msgCountDelta v ∉ (ServeHTTP g r now).events)
        ∧ ∀ x y, LogEntry.countMismatch x y ∉ (ServeHTTP g r now).logs) := by
  refine ⟨fun hout => ?_, fun hin => ?_, fun hpos => ?_, fun hnp => ?_⟩
    <;> simp only [ServeHTTP, h]
  · rw [if_neg (by omega)]
  · rw [if_pos (by omega)]
  · rw [if_pos (by omega)]
    simp
  · rw [if_neg (by omega), if_neg (by omega)]
    constructor
    · intro v hv
      simp only [List.append_nil, List.mem_append, List.mem_map,
        List.mem_singleton] at hv
      rcases hv with hv | hv
      · obtain ⟨a, -, ha⟩ := hv
        injection ha with h1 h2
        exact MetricName.noConfusion h1
      · exact TeleEvent.noConfusion hv
    · intro x y hxy
      simp only [List.append_nil, List.mem_map] at hxy
      obtain ⟨a, -, ha⟩ := hxy
      exact LogEntry.noConfusion ha

/-- Witness for the amended claim C8: header value 3 with an empty
body pre-sizes to 3 and emits a delta of 3. -/
theorem msgCount_header_semantics_witness :
    (okResolver (⟨[51], []⟩ : Request) = .ok 0)
    ∧ (1 ≤ goAtoi [51] ∧ goAtoi [51] ≤ 10 →
        (ServeHTTP okResolver ⟨[51], []⟩ 0).presized = some (goAtoi [51]).toNat)
    ∧ (0 < goAtoi [51] →
        TeleEvent.value .msgCountDelta
            (goAtoi [51] - (ReadSyslogMessages [] ([] : List Nat)).1.length)
          ∈ (ServeHTTP okResolver ⟨[51], []⟩ 0).events) := by
  have h := msgCount_header_semantics okResolver ⟨[51], []⟩ 0 0 rfl
  exact ⟨rfl, h.2.1, h.2.2.1⟩

/-- Claim C10: when context resolution succeeds but zero records are
decoded, the sink is never invoked while the request count metric is
still emitted; and whenever at least one record is decoded the sink is
invoked once with exactly the decoded records. -/
theorem serveHTTP_sink_behaviour {α : Type} (g : Request → Except (List Nat) α)
    (r : Request) (now : Int) (ctx : α) (h : g r = .ok ctx) :
    ((ReadSyslogMessages [] r.body).1 = [] → (ServeHTTP g r now).sink = none)
    ∧ ((ReadSyslogMessages [] r.body).1 ≠ [] →
        (ServeHTTP g r now).sink = some ((ReadSyslogMessages [] r.body).1, ctx))
    ∧ TeleEvent.count .request 1 ∈ (ServeHTTP g r now).events := by
  simp only [ServeHTTP, h]
  refine ⟨fun hnil => ?_, fun hne => ?_, ?_⟩
  · rw [if_neg (by simp [hnil])]
  · rw [if_pos (by simpa using hne)]
  · simp

/-- Witness for claim C10: an empty body decodes zero records, the
sink stays uninvoked and the request count metric is emitted. -/
theorem serveHTTP_sink_behaviour_witness :
    (okResolver (⟨[], []⟩ : Request) = .ok 0)
    ∧ (ReadSyslogMessages [] ([] : List Nat)).1 = []
    ∧ (ServeHTTP okResolver ⟨[], []⟩ 0).sink = none
    ∧ TeleEvent.count .request 1 ∈ (ServeHTTP okResolver ⟨[], []⟩ 0).events := by
  have h := serveHTTP_sink_behaviour okResolver ⟨[], []⟩ 0 0 rfl
  exact ⟨rfl, by decide, h.1 (by decide), h.2.2⟩

/-! ### Record parser: claim C3 -/

/-- Claim C3: the parser fails with the pattern-mismatch error exactly
when the sanitized text does not match the seven-field-plus-remainder
grammar; when the shape matches but the timestamp field does not parse
it fails with the timestamp-parse error (never pattern mismatch); and
on success it returns the record built from the groups with the
timestamp converted to UTC. -/
theorem parseSyslogMessage_spec (b : List Nat) :
    (ParseSyslogMessage b = .error .patternMismatch ↔ matchSyslog (ensureUtf8 b) = none)
    ∧ ∀ gs, matchSyslog (ensureUtf8 b) = some gs →
        (parseRFC3339Nano gs.g3 = none →
            ParseSyslogMessage b = .error (.timeParse gs.g3))
        ∧ ∀ t, parseRFC3339Nano gs.g3 = some t →
            ParseSyslogMessage b =
              .ok ⟨gs.g1, gs.g2, toUTC t, gs.g4, gs.g5, gs.g6, gs.g7, gs.g8⟩ := by
  rcases hm : matchSyslog (ensureUtf8 b) with _ | gs
  · refine ⟨by simp [ParseSyslogMessage, hm], fun gs hgs => ?_⟩
    exact Option.noConfusion hgs
  · refine ⟨?_, fun gs2 hgs => ?_⟩
    · rcases hp : parseRFC3339Nano gs.g3 with _ | t
      · simp [ParseSyslogMessage, hm, hp]
      · simp [ParseSyslogMessage, hm, hp]
    · injection hgs with hgs2
      subst hgs2
      constructor
      · intro hp
        simp [ParseSyslogMessage, hm, hp]
      · intro t hp
        simp [ParseSyslogMessage, hm, hp]

/-- Witness for claim C3: the sample frame parses to the record of the
repository tests, with the timestamp instant at its Unix nanosecond
value and the location normalized to UTC. -/
theorem parseSyslogMessage_spec_witness :
    matchSyslog (ensureUtf8 sampleMessage) = some sampleGroups
    ∧ parseRFC3339Nano sampleGroups.g3 = some ⟨1389299684651004000, .fixed 0⟩
    ∧ ParseSyslogMessage sampleMessage
        = .ok ⟨sampleGroups.g1, sampleGroups.g2, toUTC ⟨1389299684651004000, .fixed 0⟩,
            sampleGroups.g4, sampleGroups.g5, sampleGroups.g6, sampleGroups.g7,
            sampleGroups.g8⟩ :=
  ⟨by decide, by decide,
    ((parseSyslogMessage_spec sampleMessage).2 sampleGroups (by decide)).2
      ⟨1389299684651004000, .fixed 0⟩ (by decide)⟩

/-! ### Log-line telemetry: claim C9 -/

/-- Claim C9 counterexample: the line the code emits for a numeric
value is prefixed APP_METRIC, not METRIC as the claim states, so the
emitted line does not have the claimed form. -/
theorem printAppMetric_prefix_counterexample :
    logTelemetryValue (.int 42) [120] = some (appMetricLine valueKey [120] (intToDec 42))
    ∧ logTelemetryValue (.int 42) [120] ≠ some (specMetricLine valueKey [120] (intToDec 42)) := by
  exact ⟨rfl, by decide⟩

/-- Claim C9 (amended: the line prefix is APP_METRIC, not METRIC): for
every numeric value the log-line telemetry emits exactly one line
APP_METRIC, open brace, the quoted stat name, the value or count key
and the marshalled number, close brace; a non-numeric value passed to
Value emits nothing; Count always receives an integer and always
emits. -/
theorem printAppMetric_spec :
    (∀ n name, logTelemetryValue (.int n) name
        = some (appMetricLine valueKey name (intToDec n)))
    ∧ (∀ rend name, logTelemetryValue (.float rend) name
        = some (appMetricLine valueKey name rend))
    ∧ (∀ name, logTelemetryValue .other name = none)
    ∧ (∀ n name, logTelemetryCount n name
        = some (appMetricLine countKey name (intToDec n))) :=
  ⟨fun _ _ => rfl, fun _ _ => rfl, fun _ => rfl, fun _ _ => rfl⟩

end Logtap
